import Mathlib

/-!
# Verification of the media-convert batch transcode engine

A shallow embedding of `src/convert.py` (and the discovery filter shared with
`src/scan.py`).  Python strings are modelled as `List Char`, the filesystem as
a partial map from paths to file data, and the external tools (`ffprobe`,
`ffmpeg`, `os.replace`) as explicit oracle inputs describing their observable
behaviour at the call site.  Machine integers are modelled as `Int`/`Nat`
(Python ints are unbounded, so no wrap-around is needed); the float arithmetic
in the bitrate fallback is modelled exactly over `ℚ` (Python's `int()`
truncation towards zero coincides with `Rat.floor` on the positive values the
guarded branch produces).
-/

/-! ## Generic string helpers (Python `in`, `startswith` on `List Char`) -/

/-- Here `leadsWith needle hay` is Python's `hay.startswith(needle)`. -/
def leadsWith {α : Type} [DecidableEq α] : List α → List α → Bool
  | [], _ => true
  | _ :: _, [] => false
  | a :: as, b :: bs => a = b && leadsWith as bs

/-- Here `hasSegment needle hay` is Python's `needle in hay` (contiguous substring). -/
def hasSegment {α : Type} [DecidableEq α] (needle : List α) : List α → Bool
  | [] => needle.isEmpty
  | c :: rest => leadsWith needle (c :: rest) || hasSegment needle rest

theorem leadsWith_refl_append {α : Type} [DecidableEq α] (t b : List α) :
    leadsWith t (t ++ b) = true := by
  induction t with
  | nil => rfl
  | cons c cs ih => simp [leadsWith, ih]

/-- A needle occurring literally in the middle of a string is found. -/
theorem hasSegment_middle {α : Type} [DecidableEq α] (a t b : List α) :
    hasSegment t (a ++ t ++ b) = true := by
  induction a with
  | nil =>
    cases t with
    | nil => cases b <;> simp [hasSegment, List.isEmpty, leadsWith]
    | cons c cs =>
      have h := leadsWith_refl_append (c :: cs) b
      simp only [List.cons_append] at h
      simp [hasSegment, h]
  | cons c cs ih =>
    have h : hasSegment t (cs ++ (t ++ b)) = true := by
      rw [← List.append_assoc]; exact ih
    simp [hasSegment, h]

/-! ## Path and filesystem model

`pathlib.Path` values are modelled by their parent-directory rendering, stem
and suffix (the suffix includes the leading dot, as in Python). -/

structure PPath where
  dir : List Char
  stem : List Char
  suffix : List Char
deriving DecidableEq

/-- Python `Path.name` = stem + suffix. -/
def PPath.nameL (p : PPath) : List Char := p.stem ++ p.suffix

/-- Rendering used for `f.resolve().as_posix()` / `str(path)`. -/
def path_str (p : PPath) : List Char := p.dir ++ p.stem ++ p.suffix

/-- One file's observable identity: its byte size and (abstract) content. -/
structure FileData where
  size : Nat
  content : Nat
deriving DecidableEq

/-- The directory tree as a partial map from paths to file data. -/
def FS : Type := PPath → Option FileData

/-- Point update of the filesystem (models unlink with `none`, create/replace
with `some`). -/
def updateFS (fs : FS) (p : PPath) (v : Option FileData) : FS :=
  fun q => if q = p then v else fs q

theorem updateFS_same (fs : FS) (p : PPath) (v : Option FileData) :
    updateFS fs p v p = v := by
  simp [updateFS]

theorem updateFS_other (fs : FS) (p q : PPath) (v : Option FileData) (h : q ≠ p) :
    updateFS fs p v q = fs q := by
  simp [updateFS, h]

/-! ## Module-level constants of `src/convert.py` (lines 13-26) -/

/-- Lower-casing, Python `str.lower()` (the suffixes involved are ASCII). -/
def lowerL (s : List Char) : List Char := s.map Char.toLower

def TMP_TAG : List Char := ".__transcoding__".toList

def VIDEO_EXTS : List (List Char) :=
  [".mkv".toList, ".mp4".toList, ".avi".toList, ".mov".toList,
   ".webm".toList, ".ts".toList, ".flv".toList, ".wmv".toList]

def H264_OK_CONTAINERS : List (List Char) :=
  [".mkv".toList, ".mp4".toList, ".mov".toList, ".ts".toList,
   ".flv".toList, ".avi".toList]

def TEXT_SUB_CODECS : List (List Char) :=
  ["subrip".toList, "srt".toList, "ass".toList, "ssa".toList,
   "webvtt".toList, "mov_text".toList]

def TRANSCODER : List Char := "h264_nvenc".toList

/-- Environment-loaded integer configuration (lines 13-17); the defaults from
the source are `⟨300, 3000, 3300, 6000, 23⟩`. -/
structure Config where
  BITRATE_TOLERANCE : Int
  TARGET_BR : Int
  MAX_BR : Int
  BUFSIZE : Int
  DEFAULT_CRF : Int
deriving DecidableEq

def defaultConfig : Config := ⟨300, 3000, 3300, 6000, 23⟩

/-- Function `tmp_name_for` (line 133): insert the marker between stem and suffix. -/
def tmp_name_for (p : PPath) : PPath := { p with stem := p.stem ++ TMP_TAG }

theorem tmp_name_for_ne (p : PPath) : tmp_name_for p ≠ p := by
  intro h
  have hs : p.stem ++ TMP_TAG = p.stem := congrArg PPath.stem h
  have hl := congrArg List.length hs
  simp [TMP_TAG] at hl

/-- The temporary name always contains the marker token. -/
theorem tmp_name_contains_tag (p : PPath) :
    hasSegment TMP_TAG (tmp_name_for p).nameL = true := by
  have : (tmp_name_for p).nameL = p.stem ++ TMP_TAG ++ p.suffix := by
    simp [tmp_name_for, PPath.nameL]
  rw [this]
  exact hasSegment_middle p.stem TMP_TAG p.suffix

/-! ## Stream Inspector model (`ffprobe_json` consumers, lines 89-130)

`ffprobe` output is modelled at the interface level of §6 of the spec: the
requested structured fields are either absent or carry a parsed numeric value
(`ffprobe` emits numbers as decimal strings; `int(...)`/`float(...)` on them
succeed).  A `none` result models tool failure / unparseable output / missing
top-level key. -/

structure FormatInfo where
  bit_rate : Option Int
  duration : Option ℚ
  size : Option Int

/-- Function `get_estimated_bitrate_kbps` (lines 89-109).  `Int.fdiv` is Python's
floor-division `//`; `Rat.floor` models `int()` on the (positive, thanks to
the guard) float quotient. -/
def get_estimated_bitrate_kbps (data : Option FormatInfo) : Option Int :=
  match data with
  | none => none
  | some fmt =>
    match fmt.bit_rate with
    | some n => some (Int.fdiv n 1000)
    | none =>
      let duration : ℚ := (fmt.duration).getD 0
      let size : Int := (fmt.size).getD 0
      if duration ≤ 0 ∨ size ≤ 0 then none
      else some (Rat.floor (((size : ℚ) * 8) / duration / 1000))

/-- One entry of the `ffprobe -show_entries stream=index,codec_type,codec_name`
output.  `codec_name` is `none` when the field is absent (Python then uses
`""`). -/
structure StreamEntry where
  index : Option Int
  codec_type : Option (List Char)
  codec_name : Option (List Char)

/-- Function `probe_streams` (lines 112-130): partition the streams into video/audio
indices and (index, lower-cased codec) subtitle pairs, in stream order. -/
def probe_streams (data : Option (List StreamEntry)) :
    Option (List Int × List Int × List (Int × List Char)) :=
  match data with
  | none => none
  | some entries =>
    some (entries.foldl
      (fun acc s =>
        let (vids, auds, subs) := acc
        match s.index with
        | none => (vids, auds, subs)
        | some idx =>
          let codec := lowerL (s.codec_name.getD [])
          if s.codec_type = some "video".toList then (vids ++ [idx], auds, subs)
          else if s.codec_type = some "audio".toList then (vids, auds ++ [idx], subs)
          else if s.codec_type = some "subtitle".toList then (vids, auds, subs ++ [(idx, codec)])
          else (vids, auds, subs))
      ([], [], []))

/-! ## Decision Engine (`convert_if_needed`, lines 231-244)

The early-return prefix of `convert_if_needed` computes the SKIP/CONVERT
decision before any filesystem effect; it is factored out here exactly as in
the source: container allow-list first, then (fixed-bitrate mode only) the
unknown-bitrate and within-bounds skips. -/

inductive PolicyDecision where
  | skip (reason : List Char)
  | convert
deriving DecidableEq

def PolicyDecision.isSkip : PolicyDecision → Bool
  | .skip _ => true
  | .convert => false

/-! ## Decimal rendering of integers (Python `str(int)` / f-string `{n}`) -/

def digitChar (n : Nat) : Char :=
  match n with
  | 0 => '0' | 1 => '1' | 2 => '2' | 3 => '3' | 4 => '4'
  | 5 => '5' | 6 => '6' | 7 => '7' | 8 => '8' | 9 => '9'
  | _ => '*'

def isDigitChar (c : Char) : Bool :=
  c ∈ ['0', '1', '2', '3', '4', '5', '6', '7', '8', '9']

/-- Fuel-indexed digit expansion (structural, hence kernel-reducible). -/
def natDigitsAux : Nat → Nat → List Char
  | 0, _ => []
  | fuel + 1, n =>
    if n < 10 then [digitChar n]
    else natDigitsAux fuel (n / 10) ++ [digitChar (n % 10)]

/-- Decimal digits of `n`, most significant first; `n + 1` fuel always
suffices because the argument strictly decreases. -/
def natDigits (n : Nat) : List Char := natDigitsAux (n + 1) n

def dval (c : Char) : Nat := c.toNat - 48

def digitsVal (ds : List Char) : Nat := ds.foldl (fun acc c => 10 * acc + dval c) 0

theorem digitsVal_append_one (ds : List Char) (c : Char) :
    digitsVal (ds ++ [c]) = 10 * digitsVal ds + dval c := by
  simp [digitsVal, List.foldl_append]

theorem dval_digitChar (n : Nat) (h : n < 10) : dval (digitChar n) = n := by
  interval_cases n <;> rfl

theorem digitChar_isDigit (n : Nat) (h : n < 10) : isDigitChar (digitChar n) = true := by
  interval_cases n <;> rfl

theorem natDigitsAux_val (fuel n : Nat) (h : n < fuel) :
    digitsVal (natDigitsAux fuel n) = n := by
  induction fuel generalizing n with
  | zero => omega
  | succ f ih =>
    by_cases h10 : n < 10
    · have : dval (digitChar n) = n := dval_digitChar n h10
      simp [natDigitsAux, h10, digitsVal, this]
    · have hn : 0 < n := by omega
      have hdiv : n / 10 < f := by
        have h1 : n / 10 < n := Nat.div_lt_self hn (by norm_num)
        omega
      have hmod : n % 10 < 10 := Nat.mod_lt _ (by norm_num)
      simp only [natDigitsAux, h10, if_false]
      rw [digitsVal_append_one, ih _ hdiv, dval_digitChar _ hmod]
      omega

theorem natDigits_val (n : Nat) : digitsVal (natDigits n) = n :=
  natDigitsAux_val (n + 1) n (Nat.lt_succ_self n)

theorem natDigits_inj {a b : Nat} (h : natDigits a = natDigits b) : a = b := by
  have := congrArg digitsVal h
  rwa [natDigits_val, natDigits_val] at this

theorem natDigitsAux_all_digits (fuel n : Nat) (h : n < fuel) :
    ∀ c ∈ natDigitsAux fuel n, isDigitChar c = true := by
  induction fuel generalizing n with
  | zero => omega
  | succ f ih =>
    intro c hc
    by_cases h10 : n < 10
    · simp [natDigitsAux, h10] at hc
      subst hc; exact digitChar_isDigit n h10
    · have hn : 0 < n := by omega
      have hdiv : n / 10 < f := by
        have h1 : n / 10 < n := Nat.div_lt_self hn (by norm_num)
        omega
      simp only [natDigitsAux, h10, if_false, List.mem_append, List.mem_singleton] at hc
      rcases hc with hc | hc
      · exact ih _ hdiv c hc
      · subst hc; exact digitChar_isDigit _ (Nat.mod_lt _ (by norm_num))

theorem natDigits_all_digits (n : Nat) :
    ∀ c ∈ natDigits n, isDigitChar c = true :=
  natDigitsAux_all_digits (n + 1) n (Nat.lt_succ_self n)

theorem natDigits_ne_nil (n : Nat) : natDigits n ≠ [] := by
  unfold natDigits natDigitsAux
  by_cases h10 : n < 10 <;> simp [h10]

/-- Python `str` of an `int`: digits, with a leading `-` for negatives. -/
def intRepr : Int → List Char
  | Int.ofNat n => natDigits n
  | Int.negSucc n => '-' :: natDigits (n + 1)

theorem intRepr_no_dash (n : Nat) : '-' ∉ natDigits n := by
  intro h
  have := natDigits_all_digits n '-' h
  simp [isDigitChar] at this

theorem intRepr_inj {a b : Int} (h : intRepr a = intRepr b) : a = b := by
  cases a with
  | ofNat m =>
    cases b with
    | ofNat n => exact congrArg Int.ofNat (natDigits_inj h)
    | negSucc n =>
      exfalso
      simp only [intRepr] at h
      exact intRepr_no_dash m (h ▸ List.mem_cons_self '-' _)
  | negSucc m =>
    cases b with
    | ofNat n =>
      exfalso
      simp only [intRepr] at h
      exact intRepr_no_dash n (h ▸ List.mem_cons_self '-' _)
    | negSucc n =>
      simp only [intRepr, List.cons.injEq, true_and] at h
      have h1 := natDigits_inj h
      have h2 : m = n := by omega
      exact congrArg Int.negSucc h2

theorem intRepr_ne_nil (i : Int) : intRepr i ≠ [] := by
  cases i with
  | ofNat n => exact natDigits_ne_nil n
  | negSucc n => simp [intRepr]

/-! ## Resumable Ledger (`load_done` / `save_done`, lines 31-50)

The ledger file content is a `List Char`; the in-memory `dict[str, str]` is an
insertion-ordered association list with unique keys, exactly Python's dict
observable behaviour for these two functions. -/

/-- The line-boundary characters of Python `str.splitlines`. -/
def isLineBreak (c : Char) : Bool :=
  c ∈ ['\n', '\r', '\x0b', '\x0c', '\x1c', '\x1d', '\x1e', '\x85',
       ' ', ' ']

/-- Worker for `splitlinesPy`: `acc` holds the current line reversed.
`"\r\n"` counts as a single boundary; a trailing boundary opens no new
line, matching Python. -/
def splitlinesAux : List Char → List Char → List (List Char)
  | acc, [] => if acc.isEmpty then [] else [acc.reverse]
  | acc, '\r' :: '\n' :: rest2 => acc.reverse :: splitlinesAux [] rest2
  | acc, c :: rest =>
    if isLineBreak c then acc.reverse :: splitlinesAux [] rest
    else splitlinesAux (c :: acc) rest

/-- Python `str.splitlines()`. -/
def splitlinesPy (s : List Char) : List (List Char) := splitlinesAux [] s

/-- Whitespace stripped by Python `str.strip()`: the full CPython
`str.isspace()` character set — ASCII whitespace, the `0x1c`–`0x1f`
separators, NEL, NBSP, the Ogham space mark, the `U+2000` space series,
line/paragraph separators, narrow and medium spaces, and the ideographic
space. -/
def isPySpace (c : Char) : Bool :=
  c ∈ ['\t', '\n', '\x0b', '\x0c', '\r', '\x1c', '\x1d', '\x1e', '\x1f',
       ' ', '\x85', '\xa0', ' ',
       ' ', ' ', ' ', ' ', ' ', ' ', ' ',
       ' ', ' ', ' ', ' ',
       ' ', ' ', ' ', ' ', '　']

/-- Python `str.strip()`. -/
def pstrip (s : List Char) : List Char :=
  (((s.dropWhile isPySpace).reverse).dropWhile isPySpace).reverse

/-- Python `s.split("|", 1)` for a string known to contain `'|'`: the part
before the first bar and everything after it. -/
def splitBar : List Char → List Char × List Char
  | [] => ([], [])
  | c :: rest =>
    if c = '|' then ([], rest)
    else
      let (a, b) := splitBar rest
      (c :: a, b)

/-- Python dict lookup `d.get(k)` on the association-list model. -/
def dictGet (d : List (List Char × List Char)) (k : List Char) : Option (List Char) :=
  match d with
  | [] => none
  | (k', v') :: rest => if k' = k then some v' else dictGet rest k

/-- Python dict assignment `d[k] = v`: overwrite in place, else append. -/
def dictInsert (d : List (List Char × List Char)) (k v : List Char) :
    List (List Char × List Char) :=
  match d with
  | [] => [(k, v)]
  | (k', v') :: rest =>
    if k' = k then (k, v) :: rest else (k', v') :: dictInsert rest k v

/-- One iteration of the `load_done` loop body (lines 36-42): strip, skip
blank/comment lines, skip lines without the delimiter, split once. -/
def parse_done_line (line : List Char) : Option (List Char × List Char) :=
  let s := pstrip line
  if s.isEmpty then none
  else if leadsWith "#".toList s then none
  else if ¬ ('|' ∈ s) then none
  else some (splitBar s)

/-- Function `load_done` (lines 31-43) applied to the ledger file's text (the
`DONE_FILE.exists()` short-circuit corresponds to empty text). -/
def load_done (text : List Char) : List (List Char × List Char) :=
  (splitlinesPy text).foldl
    (fun entries line =>
      match parse_done_line line with
      | none => entries
      | some (path, opt) => dictInsert entries path opt)
    []

/-- Function `save_done` (lines 46-50): one `path|opt\n` line per entry, in dict
order. -/
def save_done (done : List (List Char × List Char)) : List Char :=
  done.foldr (fun e acc => e.1 ++ '|' :: (e.2 ++ '\n' :: acc)) []

/-! ## Processing-option fingerprint (line 308) and CLI normalization (line 359) -/

/-- Python truthiness of an `Optional[int]`: `None` and `0` are falsy. -/
def pyTruthyInt : Option Int → Bool
  | none => false
  | some n => n != 0

/-- Line 308: `current_opt = f"crf:{crf}" if crf else f"br:{TARGET_BR}"`. -/
def current_opt (crf : Option Int) (targetBr : Int) : List Char :=
  if pyTruthyInt crf then "crf:".toList ++ intRepr (crf.getD 0)
  else "br:".toList ++ intRepr targetBr

/-- Line 359: `crf = args.crf if args.crf else None` — the CLI entry point
coerces an absent or zero `--crf` to `None` before calling `main`. -/
def cli_crf (argsCrf : Option Int) : Option Int :=
  if pyTruthyInt argsCrf then argsCrf else none

/-- The run's encoding mode: fixed-quality iff `convert_if_needed` receives a
non-`None` crf (its `crf is None` test, lines 239 and 278). -/
def run_mode (crf : Option Int) : Bool := crf.isSome

/-- The run's mode parameter: the CRF level in fixed-quality mode, the target
bitrate in fixed-bitrate mode. -/
def run_param (crf : Option Int) (targetBr : Int) : Int := crf.getD targetBr

/-- Outcome status of `convert_if_needed` / per-file processing. -/
inductive Status where
  | OK
  | SKIP
  | FAIL
deriving DecidableEq

/-- The decision prefix of `convert_if_needed` (lines 231-244): container
allow-list, then — in fixed-bitrate mode only — the unknown-bitrate and
within-bounds skips; fixed-quality mode (`crf` not `None`) falls through to
CONVERT without consulting the bitrate. -/
def convert_decision (cfg : Config) (ext : List Char) (br : Option Int)
    (crf : Option Int) : PolicyDecision :=
  if ¬ (ext ∈ H264_OK_CONTAINERS) then
    .skip ("container_not_h264_ok(".toList ++ ext ++ ")".toList)
  else
    match crf with
    | none =>
      match br with
      | none => .skip "bitrate_unknown".toList
      | some b =>
        if b ≤ cfg.MAX_BR + cfg.BITRATE_TOLERANCE then
          .skip ("ok(".toList ++ intRepr b ++ "kbps)".toList)
        else .convert
    | some _ => .convert

/-! ## Encode Plan Builder (`build_ffmpeg_cmd`, lines 164-227) -/

/-- The `maps += ["-map", f"0:{i}"]` loops (lines 173-177, 181-187). -/
def map_args (idxs : List Int) : List (List Char) :=
  idxs.foldr (fun i acc => "-map".toList :: ('0' :: ':' :: intRepr i) :: acc) []

/-- Which subtitle stream indices get a `-map` (lines 179-188): all of them
for `.mkv`, only recognized text codecs for `.mp4`/`.mov`, none otherwise. -/
def sub_selection (ext : List Char) (subs : List (Int × List Char)) : List Int :=
  if ext = ".mkv".toList then subs.map Prod.fst
  else if ext = ".mp4".toList ∨ ext = ".mov".toList then
    (subs.filter (fun s => s.2 ∈ TEXT_SUB_CODECS)).map Prod.fst
  else []

/-- The `sub_mode` variable (lines 179-188). -/
def sub_mode_for (ext : List Char) : List Char :=
  if ext = ".mkv".toList then "copy".toList
  else if ext = ".mp4".toList ∨ ext = ".mov".toList then "mov_text".toList
  else "none".toList

/-- Video/audio codec parameters (lines 196-217): CRF branch or bitrate
branch. -/
def video_params (cfg : Config) (crf : Option Int) : List (List Char) :=
  match crf with
  | some c =>
    ["-c:v".toList, TRANSCODER, "-preset".toList, "p4".toList,
     "-profile:v".toList, "high".toList, "-crf".toList, intRepr c,
     "-pix_fmt".toList, "yuv420p".toList, "-c:a".toList, "copy".toList,
     "-max_muxing_queue_size".toList, "1024".toList]
  | none =>
    ["-c:v".toList, TRANSCODER, "-preset".toList, "p4".toList,
     "-profile:v".toList, "high".toList,
     "-b:v".toList, intRepr cfg.TARGET_BR ++ ['k'],
     "-maxrate".toList, intRepr cfg.MAX_BR ++ ['k'],
     "-bufsize".toList, intRepr cfg.BUFSIZE ++ ['k'],
     "-pix_fmt".toList, "yuv420p".toList, "-c:a".toList, "copy".toList,
     "-max_muxing_queue_size".toList, "1024".toList]

/-- Subtitle codec arguments (lines 219-224). -/
def sub_codec_args (subMode : List Char) : List (List Char) :=
  if subMode = "copy".toList then ["-c:s".toList, "copy".toList]
  else if subMode = "mov_text".toList then ["-c:s".toList, "mov_text".toList]
  else ["-sn".toList]

/-- Function `build_ffmpeg_cmd` (lines 164-227); returns `(cmd, err)` as the source
does.  The stream probe result is an explicit input. -/
def build_ffmpeg_cmd (cfg : Config) (in_file out_file : PPath) (crf : Option Int)
    (sd : Option (List StreamEntry)) :
    Option (List (List Char)) × Option (List Char) :=
  let ext := lowerL in_file.suffix
  match probe_streams sd with
  | none => (none, some "ffprobe_failed".toList)
  | some (vids, auds, subs) =>
    let cmd :=
      ["ffmpeg".toList, "-hide_banner".toList, "-loglevel".toList,
       "error".toList, "-y".toList, "-i".toList, path_str in_file]
      ++ map_args vids ++ map_args auds ++ map_args (sub_selection ext subs)
      ++ video_params cfg crf
      ++ sub_codec_args (sub_mode_for ext)
      ++ [path_str out_file]
    (some cmd, none)

/-- Observable "stream mapping" of a command: every token that immediately
follows a `-map` token. -/
def tokens_after_map : List (List Char) → List (List Char)
  | [] => []
  | a :: rest =>
    if a = "-map".toList then
      match rest with
      | [] => []
      | x :: _ => x :: tokens_after_map rest
    else tokens_after_map rest

/-! ## Atomic Replacer (`safe_replace`, lines 150-161)

`os.replace` is atomic: an attempt either fully succeeds or leaves the
filesystem unchanged.  The oracle `att` gives the outcome of the `k`-th
attempt (a transient `PermissionError`, a fatal `FileNotFoundError`, another
transient exception, or success). -/

inductive ReplaceAttempt where
  | ok
  | permError
  | notFound
  | otherError
deriving DecidableEq

/-- Effect of a successful `os.replace(src, dst)`. -/
def os_replace_effect (fs : FS) (src dst : PPath) : FS :=
  fun q => if q = src then none else if q = dst then fs src else fs q

/-- The `for _ in range(12)` retry loop of `safe_replace`. -/
def safe_replace_go (fs : FS) (src dst : PPath) (att : Nat → ReplaceAttempt) :
    Nat → Nat → Bool × FS
  | 0, _ => (false, fs)
  | n + 1, k =>
    match att k with
    | .ok => (true, os_replace_effect fs src dst)
    | .notFound => (false, fs)
    | .permError => safe_replace_go fs src dst att n (k + 1)
    | .otherError => safe_replace_go fs src dst att n (k + 1)

/-- Function `safe_replace` (lines 150-161): up to 12 attempts. -/
def safe_replace (fs : FS) (src dst : PPath) (att : Nat → ReplaceAttempt) :
    Bool × FS :=
  safe_replace_go fs src dst att 12 0

/-! ## `convert_if_needed` (lines 230-279) -/

/-- Observable behaviour of the external encode invocation: its exit code and
whatever it left at the output path (the encode tool writes only to
`out_file`, spec §6). -/
structure EncOutcome where
  returncode : Int
  output : Option FileData

/-- Function `convert_if_needed` (lines 230-279) as a state transformer on the
filesystem.  `unlink` on an existing file is modelled as succeeding (the
`except` arms of lines 250-252/263-267 absorb environment faults outside this
model). -/
def convert_if_needed (cfg : Config) (fs : FS) (file : PPath) (crf : Option Int)
    (fmtData : Option FormatInfo) (sd : Option (List StreamEntry))
    (enc : EncOutcome) (att : Nat → ReplaceAttempt) :
    (Status × List Char) × FS :=
  let ext := lowerL file.suffix
  let br := get_estimated_bitrate_kbps fmtData
  match convert_decision cfg ext br crf with
  | .skip reason => ((.SKIP, reason), fs)
  | .convert =>
    let tmp := tmp_name_for file
    let fs1 := if (fs tmp).isSome then updateFS fs tmp none else fs
    match build_ffmpeg_cmd cfg file tmp crf sd with
    | (_, some err) => ((.FAIL, err), fs1)
    | (none, none) => ((.FAIL, "cmd_build_failed".toList), fs1)
    | (some cmd, none) =>
      if cmd.isEmpty then ((.FAIL, "cmd_build_failed".toList), fs1)
      else
        let fs2 := updateFS fs1 tmp enc.output
        let bad := (enc.returncode != 0) ||
          (match fs2 tmp with
           | none => true
           | some d => d.size == 0)
        if bad then
          let fs3 := if (fs2 tmp).isSome then updateFS fs2 tmp none else fs2
          ((.FAIL, "ffmpeg_failed".toList), fs3)
        else
          match safe_replace fs2 tmp file att with
          | (true, fs3) =>
            let mode :=
              match crf with
              | some c => "crf(".toList ++ intRepr c ++ ")".toList
              | none =>
                "converted(".toList ++
                  (match br with
                   | some b => intRepr b
                   | none => "None".toList) ++ "kbps)".toList
            ((.OK, mode), fs3)
          | (false, fs3) =>
            let fs4 := if (fs3 tmp).isSome then updateFS fs3 tmp none else fs3
            ((.FAIL, "replace_failed".toList), fs4)

/-! ## Batch Orchestrator (`main`, lines 282-330) -/

/-- Discovery predicate of the batch loop (line 299): a regular file with a
recognized video extension whose name does not contain the marker token. -/
def discovery_ok (fs : FS) (p : PPath) : Bool :=
  (fs p).isSome && decide (lowerL p.suffix ∈ VIDEO_EXTS) &&
    !(hasSegment TMP_TAG p.nameL)

/-- The `files` list built at lines 297-300 from the tree enumeration. -/
def discover (paths : List PPath) (fs : FS) : List PPath :=
  paths.filter (discovery_ok fs)

/-- One iteration of the per-file loop (lines 306-317): ledger gate first,
then the full probe/decide/convert pipeline. -/
def main_step (cfg : Config) (done : List (List Char × List Char))
    (crf : Option Int) (fs : FS) (f : PPath) (fmtData : Option FormatInfo)
    (sd : Option (List StreamEntry)) (enc : EncOutcome)
    (att : Nat → ReplaceAttempt) : (Status × List Char) × FS :=
  if dictGet done (path_str f) = some (current_opt crf cfg.TARGET_BR) then
    ((.SKIP, "already_done".toList), fs)
  else convert_if_needed cfg fs f crf fmtData sd enc att

/-- The per-file oracle bundle for a batch run. -/
structure FileOracles where
  fmt : Option FormatInfo
  streams : Option (List StreamEntry)
  enc : EncOutcome
  att : Nat → ReplaceAttempt

structure BatchState where
  okCount : Nat
  skipCount : Nat
  failCount : Nat
  saves : Nat
  done : List (List Char × List Char)
  fs : FS
  outcomes : List (PPath × Status × List Char)

/-- The batch loop (lines 306-328).  `saveOk k` tells whether the `k`-th
`save_done` call persists; a failing call raises an uncaught exception, which
aborts the whole loop (`Except.error` carries the state at the crash: the OK
counter is already incremented and no outcome line is logged for the file). -/
def run_files (cfg : Config) (crf : Option Int) (saveOk : Nat → Bool)
    (orc : PPath → FileOracles) :
    List PPath → BatchState → Except BatchState BatchState
  | [], st => .ok st
  | f :: rest, st =>
    let pathS := path_str f
    let copt := current_opt crf cfg.TARGET_BR
    if dictGet st.done pathS = some copt then
      run_files cfg crf saveOk orc rest
        { st with skipCount := st.skipCount + 1,
                  outcomes := st.outcomes ++ [(f, Status.SKIP, "already_done".toList)] }
    else
      match convert_if_needed cfg st.fs f crf (orc f).fmt (orc f).streams
          (orc f).enc (orc f).att with
      | ((Status.OK, msg), fs2) =>
        let done2 := dictInsert st.done pathS copt
        if saveOk st.saves then
          run_files cfg crf saveOk orc rest
            { st with okCount := st.okCount + 1, done := done2,
                      saves := st.saves + 1, fs := fs2,
                      outcomes := st.outcomes ++ [(f, Status.OK, msg)] }
        else
          .error { st with okCount := st.okCount + 1, done := done2,
                           saves := st.saves + 1, fs := fs2 }
      | ((Status.SKIP, msg), fs2) =>
        run_files cfg crf saveOk orc rest
          { st with skipCount := st.skipCount + 1, fs := fs2,
                    outcomes := st.outcomes ++ [(f, Status.SKIP, msg)] }
      | ((Status.FAIL, msg), fs2) =>
        run_files cfg crf saveOk orc rest
          { st with failCount := st.failCount + 1, fs := fs2,
                    outcomes := st.outcomes ++ [(f, Status.FAIL, msg)] }

/-- Whether a batch run ended in an uncaught exception. -/
def batch_aborted : Except BatchState BatchState → Bool
  | .error _ => true
  | .ok _ => false

/-- The per-file outcome log of a batch run (also defined on the state at an
abort). -/
def batch_outcomes : Except BatchState BatchState →
    List (PPath × Status × List Char)
  | .error s => s.outcomes
  | .ok s => s.outcomes

/-! # Claim theorems -/

/-- C4: in fixed-bitrate mode, for a compatible container, an estimated
bitrate of exactly `MAX_BR + BITRATE_TOLERANCE` yields SKIP (boundary
inclusive) and one unit more yields CONVERT. -/
theorem c4_bitrate_boundary (cfg : Config) (ext : List Char)
    (h : ext ∈ H264_OK_CONTAINERS) :
    (convert_decision cfg ext (some (cfg.MAX_BR + cfg.BITRATE_TOLERANCE)) none).isSkip
        = true ∧
    convert_decision cfg ext (some (cfg.MAX_BR + cfg.BITRATE_TOLERANCE + 1)) none
        = .convert := by
  constructor
  · simp [convert_decision, h, PolicyDecision.isSkip]
  · have hgt : ¬ (cfg.MAX_BR + cfg.BITRATE_TOLERANCE + 1 ≤
        cfg.MAX_BR + cfg.BITRATE_TOLERANCE) := by omega
    simp [convert_decision, h, hgt]

theorem c4_bitrate_boundary_witness :
    (convert_decision defaultConfig ".mkv".toList
        (some (defaultConfig.MAX_BR + defaultConfig.BITRATE_TOLERANCE)) none).isSkip
        = true ∧
    convert_decision defaultConfig ".mkv".toList
        (some (defaultConfig.MAX_BR + defaultConfig.BITRATE_TOLERANCE + 1)) none
        = .convert :=
  c4_bitrate_boundary defaultConfig ".mkv".toList (by decide)

/-- C5: in fixed-quality mode the decision for a compatible container is
CONVERT for every bitrate estimate, `none` included. -/
theorem c5_fixed_quality_ignores_bitrate (cfg : Config) (ext : List Char)
    (c : Int) (h : ext ∈ H264_OK_CONTAINERS) :
    ∀ br : Option Int, convert_decision cfg ext br (some c) = .convert := by
  intro br
  simp [convert_decision, h]

theorem c5_fixed_quality_ignores_bitrate_witness :
    convert_decision defaultConfig ".mkv".toList none (some 23) = .convert ∧
    convert_decision defaultConfig ".mkv".toList (some 999999) (some 23) = .convert :=
  ⟨c5_fixed_quality_ignores_bitrate defaultConfig ".mkv".toList 23 (by decide) none,
   c5_fixed_quality_ignores_bitrate defaultConfig ".mkv".toList 23 (by decide)
     (some 999999)⟩

/-- C10: no file selected by batch discovery has the marker token in its
name. -/
theorem c10_discovery_excludes_marker (paths : List PPath) (fs : FS) (p : PPath)
    (h : p ∈ discover paths fs) :
    hasSegment TMP_TAG p.nameL = false := by
  have hmem := List.mem_filter.mp h
  have hb := hmem.2
  simp only [discovery_ok, Bool.and_eq_true, Bool.not_eq_true'] at hb
  exact hb.2

theorem c10_discovery_excludes_marker_witness :
    hasSegment TMP_TAG (PPath.mk [] "a".toList ".mkv".toList).nameL = false :=
  c10_discovery_excludes_marker
    [PPath.mk [] "a".toList ".mkv".toList,
     tmp_name_for (PPath.mk [] "a".toList ".mkv".toList)]
    (fun q => if q = PPath.mk [] "a".toList ".mkv".toList then some ⟨1, 1⟩
      else if q = tmp_name_for (PPath.mk [] "a".toList ".mkv".toList) then some ⟨2, 2⟩
      else none)
    (PPath.mk [] "a".toList ".mkv".toList)
    (by decide)

/-- C2: the orchestrator's per-file ledger gate.  If the ledger entry for the
file's path equals the current option fingerprint, the outcome is SKIP with
reason `already_done`, independently of all probe/encode oracles (no probe
happens); otherwise the file goes through the full
probe/decide/convert pipeline. -/
theorem c2_ledger_gate (cfg : Config) (done : List (List Char × List Char))
    (crf : Option Int) (fs : FS) (f : PPath) (fmtData : Option FormatInfo)
    (sd : Option (List StreamEntry)) (enc : EncOutcome)
    (att : Nat → ReplaceAttempt) :
    (dictGet done (path_str f) = some (current_opt crf cfg.TARGET_BR) →
      ∀ (fmtData2 : Option FormatInfo) (sd2 : Option (List StreamEntry))
        (enc2 : EncOutcome) (att2 : Nat → ReplaceAttempt),
        main_step cfg done crf fs f fmtData2 sd2 enc2 att2 =
          ((Status.SKIP, "already_done".toList), fs)) ∧
    (dictGet done (path_str f) ≠ some (current_opt crf cfg.TARGET_BR) →
      main_step cfg done crf fs f fmtData sd enc att =
        convert_if_needed cfg fs f crf fmtData sd enc att) := by
  constructor
  · intro h fmtData2 sd2 enc2 att2
    simp [main_step, h]
  · intro h
    simp [main_step, h]

theorem c2_ledger_gate_witness :
    (main_step defaultConfig
        [(path_str (PPath.mk "/".toList "a".toList ".mkv".toList),
          current_opt (some 23) defaultConfig.TARGET_BR)]
        (some 23) (fun _ => none) (PPath.mk "/".toList "a".toList ".mkv".toList)
        none none ⟨1, none⟩ (fun _ => .ok) =
      ((Status.SKIP, "already_done".toList), (fun _ => none : FS))) ∧
    (main_step defaultConfig [] (some 23) (fun _ => none)
        (PPath.mk "/".toList "a".toList ".mkv".toList)
        none none ⟨1, none⟩ (fun _ => .ok) =
      convert_if_needed defaultConfig (fun _ => none)
        (PPath.mk "/".toList "a".toList ".mkv".toList) (some 23)
        none none ⟨1, none⟩ (fun _ => .ok)) :=
  ⟨(c2_ledger_gate defaultConfig
      [(path_str (PPath.mk "/".toList "a".toList ".mkv".toList),
        current_opt (some 23) defaultConfig.TARGET_BR)]
      (some 23) (fun _ => none) (PPath.mk "/".toList "a".toList ".mkv".toList)
      none none ⟨1, none⟩ (fun _ => .ok)).1 (by decide)
      none none ⟨1, none⟩ (fun _ => .ok),
   (c2_ledger_gate defaultConfig [] (some 23) (fun _ => none)
      (PPath.mk "/".toList "a".toList ".mkv".toList)
      none none ⟨1, none⟩ (fun _ => .ok)).2 (by decide)⟩

/-- C8: the bitrate estimator prefers the reported bit-rate field
(floor-divided by 1000); with the field absent it computes
`(size * 8) / duration / 1000` truncated when both are positive, and `none`
when duration or size is non-positive or missing. -/
theorem c8_bitrate_estimator (fmt : FormatInfo) :
    (∀ n : Int, fmt.bit_rate = some n →
        get_estimated_bitrate_kbps (some fmt) = some (Int.fdiv n 1000)) ∧
    (fmt.bit_rate = none → 0 < fmt.duration.getD 0 → 0 < fmt.size.getD 0 →
        get_estimated_bitrate_kbps (some fmt) =
          some (Rat.floor ((((fmt.size.getD 0 : Int) : ℚ) * 8) /
            fmt.duration.getD 0 / 1000))) ∧
    (fmt.bit_rate = none →
        (fmt.duration.getD 0 ≤ 0 ∨ fmt.size.getD 0 ≤ 0) →
        get_estimated_bitrate_kbps (some fmt) = none) := by
  refine ⟨?_, ?_, ?_⟩
  · intro n h
    simp [get_estimated_bitrate_kbps, h]
  · intro h hd hs
    have hcond : ¬ (fmt.duration.getD 0 ≤ 0 ∨ (fmt.size.getD 0 : Int) ≤ 0) := by
      push_neg
      exact ⟨hd, hs⟩
    simp [get_estimated_bitrate_kbps, h, hcond]
  · intro h hcond
    simp [get_estimated_bitrate_kbps, h, hcond]

theorem c8_bitrate_estimator_witness :
    get_estimated_bitrate_kbps (some ⟨some 5000, none, none⟩) =
        some (Int.fdiv 5000 1000) ∧
    get_estimated_bitrate_kbps (some ⟨none, some 2, some 1000⟩) =
        some (Rat.floor ((((Option.getD (some (1000 : Int)) 0 : Int) : ℚ) * 8) /
          Option.getD (some (2 : ℚ)) 0 / 1000)) ∧
    get_estimated_bitrate_kbps (some ⟨none, some 0, some 10⟩) = none :=
  ⟨(c8_bitrate_estimator ⟨some 5000, none, none⟩).1 5000 rfl,
   (c8_bitrate_estimator ⟨none, some 2, some 1000⟩).2.1 rfl (by norm_num) (by norm_num),
   (c8_bitrate_estimator ⟨none, some 0, some 10⟩).2.2 rfl (Or.inl (by norm_num))⟩

/-! ### C6: fingerprint injectivity -/

theorem current_opt_inj (c1 c2 : Option Int) (t1 t2 : Int)
    (h1 : c1 ≠ some 0) (h2 : c2 ≠ some 0) :
    current_opt c1 t1 = current_opt c2 t2 ↔
      (run_mode c1 = run_mode c2 ∧ run_param c1 t1 = run_param c2 t2) := by
  have hcrf : "crf:".toList = 'c' :: 'r' :: 'f' :: ':' :: [] := rfl
  have hbr : "br:".toList = 'b' :: 'r' :: ':' :: [] := rfl
  cases c1 with
  | none =>
    cases c2 with
    | none =>
      simp only [current_opt, pyTruthyInt, Bool.false_eq_true, if_false,
        run_mode, run_param, Option.isSome_none, Option.getD_none, true_and]
      constructor
      · intro h
        exact intRepr_inj (List.append_cancel_left h)
      · intro h
        rw [h]
    | some v2 =>
      have hv2 : v2 ≠ 0 := fun e => h2 (by rw [e])
      simp only [current_opt, pyTruthyInt, run_mode, run_param, hv2, ne_eq,
        not_false_eq_true, bne_iff_ne, if_true, Bool.false_eq_true, if_false,
        Option.isSome_none, Option.isSome_some, Option.getD_none,
        Option.getD_some, hcrf, hbr, List.cons_append, List.cons.injEq]
      simp
  | some v1 =>
    have hv1 : v1 ≠ 0 := fun e => h1 (by rw [e])
    cases c2 with
    | none =>
      simp only [current_opt, pyTruthyInt, run_mode, run_param, hv1, ne_eq,
        not_false_eq_true, bne_iff_ne, if_true, Bool.false_eq_true, if_false,
        Option.isSome_none, Option.isSome_some, Option.getD_none,
        Option.getD_some, hcrf, hbr, List.cons_append, List.cons.injEq]
      simp
    | some v2 =>
      have hv2 : v2 ≠ 0 := fun e => h2 (by rw [e])
      simp only [current_opt, pyTruthyInt, run_mode, run_param, hv1, hv2, ne_eq,
        not_false_eq_true, bne_iff_ne, if_true,
        Option.isSome_some, Option.getD_some, hcrf, hbr, List.cons_append,
        List.cons.injEq, true_and]
      constructor
      · intro h
        exact intRepr_inj h
      · intro h
        rw [h]

theorem cli_crf_ne_zero (a : Option Int) : cli_crf a ≠ some 0 := by
  cases a with
  | none => simp [cli_crf, pyTruthyInt]
  | some v =>
    by_cases hv : v = 0 <;> simp [cli_crf, pyTruthyInt, hv]

/-- C6: over actual runs — where the CLI (line 359) coerces an absent or zero
`--crf` into fixed-bitrate mode before `main` runs — the option fingerprint of
line 308 is injective over (encoding mode, parameter): two fingerprints are
equal iff the modes agree and the CRF level resp. target bitrate agrees. -/
theorem c6_fingerprint_injective (a1 a2 : Option Int) (t1 t2 : Int) :
    current_opt (cli_crf a1) t1 = current_opt (cli_crf a2) t2 ↔
      (run_mode (cli_crf a1) = run_mode (cli_crf a2) ∧
       run_param (cli_crf a1) t1 = run_param (cli_crf a2) t2) :=
  current_opt_inj _ _ _ _ (cli_crf_ne_zero a1) (cli_crf_ne_zero a2)

/-! ### C1: failed attempts leave the original untouched and no temp behind -/

theorem updateFS_updateFS (fs : FS) (p : PPath) (v w : Option FileData) :
    updateFS (updateFS fs p v) p w = updateFS fs p w := by
  funext q
  by_cases h : q = p <;> simp [updateFS, h]

theorem safe_replace_go_false (fs : FS) (src dst : PPath)
    (att : Nat → ReplaceAttempt) :
    ∀ n k, (safe_replace_go fs src dst att n k).1 = false →
      (safe_replace_go fs src dst att n k).2 = fs := by
  intro n
  induction n with
  | zero => intro k _; rfl
  | succ m ih =>
    intro k h
    cases hat : att k with
    | ok => rw [safe_replace_go, hat] at h; simp at h
    | notFound => rw [safe_replace_go, hat]
    | permError =>
      rw [safe_replace_go, hat] at h ⊢
      exact ih (k + 1) h
    | otherError =>
      rw [safe_replace_go, hat] at h ⊢
      exact ih (k + 1) h

theorem safe_replace_go_true (fs : FS) (src dst : PPath)
    (att : Nat → ReplaceAttempt) :
    ∀ n k, (safe_replace_go fs src dst att n k).1 = true →
      (safe_replace_go fs src dst att n k).2 = os_replace_effect fs src dst := by
  intro n
  induction n with
  | zero => intro k h; simp [safe_replace_go] at h
  | succ m ih =>
    intro k h
    cases hat : att k with
    | ok => rw [safe_replace_go, hat]
    | notFound => rw [safe_replace_go, hat] at h; simp at h
    | permError =>
      rw [safe_replace_go, hat] at h ⊢
      exact ih (k + 1) h
    | otherError =>
      rw [safe_replace_go, hat] at h ⊢
      exact ih (k + 1) h

/-- Case shape of one `convert_if_needed` attempt started with no stale temp
at the temp path: SKIP and early FAILs leave the filesystem untouched, the
encode/replace FAILs leave exactly the temp path cleared, and OK leaves the
replaced filesystem. -/
theorem convert_if_needed_shape (cfg : Config) (fs : FS) (file : PPath)
    (crf : Option Int) (fmt : Option FormatInfo) (sd : Option (List StreamEntry))
    (enc : EncOutcome) (att : Nat → ReplaceAttempt)
    (htmp : fs (tmp_name_for file) = none) :
    ((convert_if_needed cfg fs file crf fmt sd enc att).1.1 = Status.SKIP ∧
      (convert_if_needed cfg fs file crf fmt sd enc att).2 = fs) ∨
    ((convert_if_needed cfg fs file crf fmt sd enc att).1.1 = Status.FAIL ∧
      (convert_if_needed cfg fs file crf fmt sd enc att).2 = fs) ∨
    ((convert_if_needed cfg fs file crf fmt sd enc att).1.1 = Status.FAIL ∧
      (convert_if_needed cfg fs file crf fmt sd enc att).2 =
        updateFS fs (tmp_name_for file) none) ∨
    ((convert_if_needed cfg fs file crf fmt sd enc att).1.1 = Status.OK ∧
      (convert_if_needed cfg fs file crf fmt sd enc att).2 =
        os_replace_effect (updateFS fs (tmp_name_for file) enc.output)
          (tmp_name_for file) file) := by
  cases hdec : convert_decision cfg (lowerL file.suffix)
      (get_estimated_bitrate_kbps fmt) crf with
  | skip reason =>
    left
    constructor <;> simp [convert_if_needed, hdec]
  | convert =>
    right
    rcases hbd : build_ffmpeg_cmd cfg file (tmp_name_for file) crf sd with ⟨cmdOpt, errOpt⟩
    cases errOpt with
    | some err =>
      left
      constructor <;> simp [convert_if_needed, hdec, hbd, htmp]
    | none =>
      cases cmdOpt with
      | none =>
        left
        constructor <;> simp [convert_if_needed, hdec, hbd, htmp]
      | some cmd =>
        cases hemp : cmd.isEmpty with
        | true =>
          left
          constructor <;> simp [convert_if_needed, hdec, hbd, htmp, hemp]
        | false =>
          right
          cases ho : enc.output with
          | none =>
            left
            constructor <;>
              simp [convert_if_needed, hdec, hbd, htmp, hemp, ho, updateFS_same]
          | some d =>
            by_cases hbad : (¬enc.returncode = 0 ∨ d.size = 0)
            · left
              constructor <;>
                simp [convert_if_needed, hdec, hbd, htmp, hemp, ho, updateFS_same,
                  hbad, updateFS_updateFS]
            · rcases hrep : safe_replace (updateFS fs (tmp_name_for file) (some d))
                  (tmp_name_for file) file att with ⟨b, fs3⟩
              cases b with
              | true =>
                right
                have h1 : (safe_replace (updateFS fs (tmp_name_for file) (some d))
                    (tmp_name_for file) file att).1 = true := by rw [hrep]
                have h2 := safe_replace_go_true
                  (updateFS fs (tmp_name_for file) (some d)) (tmp_name_for file)
                  file att 12 0 h1
                have h3 : fs3 = os_replace_effect
                    (updateFS fs (tmp_name_for file) (some d)) (tmp_name_for file)
                    file := by
                  rw [safe_replace] at hrep
                  rw [← h2, hrep]
                constructor <;>
                  simp [convert_if_needed, hdec, hbd, htmp, hemp, ho, updateFS_same,
                    hbad, hrep, h3]
              | false =>
                left
                have h1 : (safe_replace (updateFS fs (tmp_name_for file) (some d))
                    (tmp_name_for file) file att).1 = false := by rw [hrep]
                have h2 := safe_replace_go_false
                  (updateFS fs (tmp_name_for file) (some d)) (tmp_name_for file)
                  file att 12 0 h1
                have h3 : fs3 = updateFS fs (tmp_name_for file) (some d) := by
                  rw [safe_replace] at hrep
                  rw [← h2, hrep]
                constructor <;>
                  simp [convert_if_needed, hdec, hbd, htmp, hemp, ho, updateFS_same,
                    hbad, hrep, h3, updateFS_updateFS]

/-- C1: on a clean start (no marker-named file anywhere, as after the batch
pre-pass sweep), a FAIL attempt leaves the original file's data unchanged and
no marker-named temp file behind; and no attempt outcome ever leaves both the
original and the temporary copy existing. -/
theorem c1_fail_preserves_original (cfg : Config) (fs : FS) (file : PPath)
    (crf : Option Int) (fmt : Option FormatInfo) (sd : Option (List StreamEntry))
    (enc : EncOutcome) (att : Nat → ReplaceAttempt)
    (hclean : ∀ q : PPath, hasSegment TMP_TAG q.nameL = true → fs q = none) :
    ((convert_if_needed cfg fs file crf fmt sd enc att).1.1 = Status.FAIL →
      (convert_if_needed cfg fs file crf fmt sd enc att).2 file = fs file ∧
      ∀ q : PPath, hasSegment TMP_TAG q.nameL = true →
        (convert_if_needed cfg fs file crf fmt sd enc att).2 q = none) ∧
    ¬ ((convert_if_needed cfg fs file crf fmt sd enc att).2 file ≠ none ∧
       (convert_if_needed cfg fs file crf fmt sd enc att).2 (tmp_name_for file)
         ≠ none) := by
  have htmp : fs (tmp_name_for file) = none := hclean _ (tmp_name_contains_tag file)
  have hne : file ≠ tmp_name_for file := fun h => tmp_name_for_ne file h.symm
  rcases convert_if_needed_shape cfg fs file crf fmt sd enc att htmp with
    ⟨hs, hfs⟩ | ⟨hs, hfs⟩ | ⟨hs, hfs⟩ | ⟨hs, hfs⟩
  · constructor
    · intro hf
      rw [hs] at hf
      exact absurd hf (by simp)
    · rw [hfs]
      rintro ⟨h1, h2⟩
      exact h2 htmp
  · constructor
    · intro _
      refine ⟨by rw [hfs], ?_⟩
      intro q hq
      rw [hfs]
      exact hclean q hq
    · rw [hfs]
      rintro ⟨h1, h2⟩
      exact h2 htmp
  · constructor
    · intro _
      refine ⟨?_, ?_⟩
      · rw [hfs]
        exact updateFS_other fs (tmp_name_for file) file none hne
      · intro q hq
        rw [hfs]
        by_cases hq2 : q = tmp_name_for file
        · rw [hq2]
          exact updateFS_same fs (tmp_name_for file) none
        · rw [updateFS_other fs (tmp_name_for file) q none hq2]
          exact hclean q hq
    · rw [hfs]
      rintro ⟨h1, h2⟩
      exact h2 (updateFS_same fs (tmp_name_for file) none)
  · constructor
    · intro hf
      rw [hs] at hf
      exact absurd hf (by simp)
    · rw [hfs]
      rintro ⟨h1, h2⟩
      apply h2
      simp [os_replace_effect]

theorem c1_fail_preserves_original_witness :
    ((convert_if_needed defaultConfig
        (fun q => if q = PPath.mk [] "a".toList ".mkv".toList then
          some ⟨100, 7⟩ else none)
        (PPath.mk [] "a".toList ".mkv".toList) (some 23) none (some [])
        ⟨1, none⟩ (fun _ => ReplaceAttempt.ok)).2
          (PPath.mk [] "a".toList ".mkv".toList) =
      (fun q => if q = PPath.mk [] "a".toList ".mkv".toList then
          some ⟨100, 7⟩ else none : FS) (PPath.mk [] "a".toList ".mkv".toList)) ∧
    ¬ ((convert_if_needed defaultConfig
        (fun q => if q = PPath.mk [] "a".toList ".mkv".toList then
          some ⟨100, 7⟩ else none)
        (PPath.mk [] "a".toList ".mkv".toList) (some 23) none (some [])
        ⟨1, none⟩ (fun _ => ReplaceAttempt.ok)).2
          (PPath.mk [] "a".toList ".mkv".toList) ≠ none ∧
      (convert_if_needed defaultConfig
        (fun q => if q = PPath.mk [] "a".toList ".mkv".toList then
          some ⟨100, 7⟩ else none)
        (PPath.mk [] "a".toList ".mkv".toList) (some 23) none (some [])
        ⟨1, none⟩ (fun _ => ReplaceAttempt.ok)).2
          (tmp_name_for (PPath.mk [] "a".toList ".mkv".toList)) ≠ none) := by
  have h := c1_fail_preserves_original defaultConfig
    (fun q => if q = PPath.mk [] "a".toList ".mkv".toList then
      some ⟨100, 7⟩ else none)
    (PPath.mk [] "a".toList ".mkv".toList) (some 23) none (some [])
    ⟨1, none⟩ (fun _ => ReplaceAttempt.ok)
    (by
      intro q hq
      by_cases hqf : q = PPath.mk [] "a".toList ".mkv".toList
      · subst hqf
        exact absurd hq (by decide)
      · simp at hqf
        simp [hqf])
  exact ⟨(h.1 (by decide)).1, h.2⟩

/-! ### C9: ledger persistence failure -/

/-- C9 counterexample: concrete two-file batch in which the first file
converts OK and every `save_done` call fails.  Contrary to the claim, the
batch aborts: no per-file outcome (in particular no FAIL) is recorded for the
first file and the second file is never processed. -/
theorem c9_save_failure_counterexample :
    batch_aborted (run_files defaultConfig (some 23) (fun _ => false)
      (fun _ => ⟨none, some [], ⟨0, some ⟨10, 5⟩⟩, fun _ => ReplaceAttempt.ok⟩)
      [PPath.mk "/".toList "a".toList ".mkv".toList,
       PPath.mk "/".toList "b".toList ".mkv".toList]
      ⟨0, 0, 0, 0, [],
        (fun q => if q = PPath.mk "/".toList "a".toList ".mkv".toList then
            some ⟨100, 1⟩
          else if q = PPath.mk "/".toList "b".toList ".mkv".toList then
            some ⟨100, 2⟩
          else none), []⟩) = true ∧
    batch_outcomes (run_files defaultConfig (some 23) (fun _ => false)
      (fun _ => ⟨none, some [], ⟨0, some ⟨10, 5⟩⟩, fun _ => ReplaceAttempt.ok⟩)
      [PPath.mk "/".toList "a".toList ".mkv".toList,
       PPath.mk "/".toList "b".toList ".mkv".toList]
      ⟨0, 0, 0, 0, [],
        (fun q => if q = PPath.mk "/".toList "a".toList ".mkv".toList then
            some ⟨100, 1⟩
          else if q = PPath.mk "/".toList "b".toList ".mkv".toList then
            some ⟨100, 2⟩
          else none), []⟩) = [] := by
  constructor <;> rfl

/-- C9 amended: a `save_done` failure after a successful conversion is an
uncaught exception — the batch loop aborts on the spot, no outcome line is
recorded for the file (so it is not surfaced as a file-level FAIL), and the
remaining files are not processed. -/
theorem c9_save_failure_aborts (cfg : Config) (crf : Option Int)
    (saveOk : Nat → Bool) (orc : PPath → FileOracles) (f : PPath)
    (rest : List PPath) (st : BatchState)
    (hledger : dictGet st.done (path_str f) ≠
      some (current_opt crf cfg.TARGET_BR))
    (hok : (convert_if_needed cfg st.fs f crf (orc f).fmt (orc f).streams
      (orc f).enc (orc f).att).1.1 = Status.OK)
    (hsave : saveOk st.saves = false) :
    batch_aborted (run_files cfg crf saveOk orc (f :: rest) st) = true ∧
    batch_outcomes (run_files cfg crf saveOk orc (f :: rest) st) =
      st.outcomes := by
  rcases hcv : convert_if_needed cfg st.fs f crf (orc f).fmt (orc f).streams
      (orc f).enc (orc f).att with ⟨⟨s, msg⟩, fs2⟩
  rw [hcv] at hok
  simp only at hok
  subst hok
  constructor <;>
    simp [run_files, hledger, hcv, hsave, batch_aborted, batch_outcomes]

theorem c9_save_failure_aborts_witness :
    batch_aborted (run_files defaultConfig (some 23) (fun _ => false)
      (fun _ => ⟨none, some [], ⟨0, some ⟨10, 5⟩⟩, fun _ => ReplaceAttempt.ok⟩)
      [PPath.mk "/".toList "c".toList ".mkv".toList]
      ⟨0, 0, 0, 0, [],
        (fun q => if q = PPath.mk "/".toList "c".toList ".mkv".toList then
            some ⟨100, 3⟩
          else none), []⟩) = true ∧
    batch_outcomes (run_files defaultConfig (some 23) (fun _ => false)
      (fun _ => ⟨none, some [], ⟨0, some ⟨10, 5⟩⟩, fun _ => ReplaceAttempt.ok⟩)
      [PPath.mk "/".toList "c".toList ".mkv".toList]
      ⟨0, 0, 0, 0, [],
        (fun q => if q = PPath.mk "/".toList "c".toList ".mkv".toList then
            some ⟨100, 3⟩
          else none), []⟩) = [] :=
  c9_save_failure_aborts defaultConfig (some 23) (fun _ => false)
    (fun _ => ⟨none, some [], ⟨0, some ⟨10, 5⟩⟩, fun _ => ReplaceAttempt.ok⟩)
    (PPath.mk "/".toList "c".toList ".mkv".toList) []
    ⟨0, 0, 0, 0, [],
      (fun q => if q = PPath.mk "/".toList "c".toList ".mkv".toList then
          some ⟨100, 3⟩
        else none), []⟩
    (by decide) (by decide) rfl

/-! ### C3: ledger round-trip -/

theorem splitlinesAux_newline (acc rest : List Char) :
    splitlinesAux acc ('\n' :: rest) = acc.reverse :: splitlinesAux [] rest := by
  simp [splitlinesAux, isLineBreak]

theorem splitlinesAux_nonbreak (acc : List Char) (c : Char) (rest : List Char)
    (hc : isLineBreak c = false) :
    splitlinesAux acc (c :: rest) = splitlinesAux (c :: acc) rest := by
  have hcr : c ≠ '\r' := by
    intro e
    subst e
    simp [isLineBreak] at hc
  cases rest with
  | nil => simp [splitlinesAux, hc]
  | cons d rest2 => simp [splitlinesAux, hc, hcr]

/-- Scanning a break-free line followed by `'\n'` emits exactly that line. -/
theorem splitlinesAux_line (line : List Char) :
    ∀ (acc rest : List Char), (∀ c ∈ line, isLineBreak c = false) →
      splitlinesAux acc (line ++ '\n' :: rest) =
        (acc.reverse ++ line) :: splitlinesAux [] rest := by
  induction line with
  | nil =>
    intro acc rest _
    simp [splitlinesAux_newline]
  | cons c cs ih =>
    intro acc rest hline
    have hc : isLineBreak c = false := hline c (by simp)
    have hcs : ∀ d ∈ cs, isLineBreak d = false := fun d hd => hline d (by simp [hd])
    rw [List.cons_append, splitlinesAux_nonbreak acc c _ hc, ih (c :: acc) rest hcs]
    simp

theorem save_done_cons (k v : List Char) (m : List (List Char × List Char)) :
    save_done ((k, v) :: m) = (k ++ '|' :: v) ++ '\n' :: save_done m := by
  simp [save_done, List.append_assoc]

/-- `save_done` output splits back into the written lines when no key or
value contains a line-boundary character. -/
theorem splitlines_save (m : List (List Char × List Char))
    (hm : ∀ e ∈ m, (∀ c ∈ e.1, isLineBreak c = false) ∧
      (∀ c ∈ e.2, isLineBreak c = false)) :
    splitlinesPy (save_done m) = m.map (fun e => e.1 ++ '|' :: e.2) := by
  induction m with
  | nil => rfl
  | cons e m ih =>
    obtain ⟨k, v⟩ := e
    have h1 := hm (k, v) (by simp)
    have hline : ∀ c ∈ k ++ '|' :: v, isLineBreak c = false := by
      intro c hc
      rcases List.mem_append.mp hc with h | h
      · exact h1.1 c h
      · rcases List.mem_cons.mp h with h | h
        · subst h; decide
        · exact h1.2 c h
    rw [save_done_cons, List.map_cons]
    unfold splitlinesPy
    rw [splitlinesAux_line (k ++ '|' :: v) [] (save_done m) hline]
    simp only [List.reverse_nil, List.nil_append, List.cons.injEq, true_and]
    exact ih (fun e he => hm e (by simp [he]))

theorem dropWhile_head_false (p : Char → Bool) (s : List Char)
    (h : ∀ c, s.head? = some c → p c = false) : s.dropWhile p = s := by
  cases s with
  | nil => rfl
  | cons c rest =>
    have := h c rfl
    simp [List.dropWhile_cons, this]

theorem pstrip_id (s : List Char)
    (h1 : ∀ c, s.head? = some c → isPySpace c = false)
    (h2 : ∀ c, s.getLast? = some c → isPySpace c = false) :
    pstrip s = s := by
  unfold pstrip
  rw [dropWhile_head_false _ s h1]
  rw [dropWhile_head_false _ s.reverse
    (by intro c hc; exact h2 c (by rwa [List.head?_reverse] at hc))]
  exact List.reverse_reverse s

theorem splitBar_append (k v : List Char) (hk : '|' ∉ k) :
    splitBar (k ++ '|' :: v) = (k, v) := by
  induction k with
  | nil => simp [splitBar]
  | cons c cs ih =>
    have hc : c ≠ '|' := fun e => hk (by simp [e])
    have hcs : '|' ∉ cs := fun h => hk (by simp [h])
    simp [splitBar, hc, ih hcs]

theorem getLast?_append_cons (k : List Char) (c : Char) (v : List Char) :
    (k ++ c :: v).getLast? = (c :: v).getLast? := by
  induction k with
  | nil => rfl
  | cons a as ih =>
    cases h : as ++ c :: v with
    | nil => simp at h
    | cons b bs =>
      rw [List.cons_append, h, List.getLast?_cons_cons, ← h, ih]

/-- A well-formed `path|opt` line survives the `load_done` line filter and
splits back into `(path, opt)`. -/
theorem parse_done_line_good (k v : List Char) (hk : k ≠ [])
    (hkbar : '|' ∉ k)
    (hhead : ∀ c, k.head? = some c → isPySpace c = false ∧ c ≠ '#')
    (hlast : ∀ c, v.getLast? = some c → isPySpace c = false) :
    parse_done_line (k ++ '|' :: v) = some (k, v) := by
  have hstrip : pstrip (k ++ '|' :: v) = k ++ '|' :: v := by
    apply pstrip_id
    · intro c hc
      cases k with
      | nil => exact absurd rfl hk
      | cons a as =>
        rw [List.cons_append, List.head?_cons, Option.some.injEq] at hc
        rw [← hc]
        exact (hhead a rfl).1
    · intro c hc
      rw [getLast?_append_cons] at hc
      cases v with
      | nil =>
        rw [List.getLast?_singleton, Option.some.injEq] at hc
        subst hc
        decide
      | cons b bs =>
        rw [List.getLast?_cons_cons] at hc
        exact hlast c hc
  have hne : (k ++ '|' :: v).isEmpty = false := by
    cases k <;> simp
  have hnh : leadsWith "#".toList (k ++ '|' :: v) = false := by
    cases k with
    | nil => exact absurd rfl hk
    | cons a as =>
      have ha : a ≠ '#' := (hhead a rfl).2
      have hna : ¬ ('#' = a) := fun e => ha e.symm
      simp [leadsWith, hna]
  have hmem : '|' ∈ k ++ '|' :: v := List.mem_append.mpr (Or.inr (by simp))
  simp only [parse_done_line, hstrip, hne, Bool.false_eq_true, if_false, hnh,
    hmem, not_true_eq_false, splitBar_append k v hkbar]

theorem dictInsert_append_of_not_mem (d : List (List Char × List Char))
    (k v : List Char) (h : ∀ e ∈ d, e.1 ≠ k) :
    dictInsert d k v = d ++ [(k, v)] := by
  induction d with
  | nil => rfl
  | cons e rest ih =>
    obtain ⟨k', v'⟩ := e
    have hk' : k' ≠ k := h (k', v') (by simp)
    simp [dictInsert, hk', ih (fun e he => h e (by simp [he]))]

/-- Soundness conditions under which a ledger entry survives the save/load
round trip: non-empty key without the delimiter, no line-boundary characters,
a key that does not begin with `#` or strippable whitespace, and a value that
does not end in strippable whitespace. -/
def ledger_safe_entry (e : List Char × List Char) : Bool :=
  !e.1.isEmpty &&
  !(decide ('|' ∈ e.1)) && !(decide ('|' ∈ e.2)) &&
  e.1.all (fun c => !isLineBreak c) && e.2.all (fun c => !isLineBreak c) &&
  (match e.1.head? with
   | some c => !isPySpace c && c != '#'
   | none => false) &&
  (match e.2.getLast? with
   | some c => !isPySpace c
   | none => true)

theorem ledger_safe_entry_spec (k v : List Char)
    (h : ledger_safe_entry (k, v) = true) :
    k ≠ [] ∧ '|' ∉ k ∧ '|' ∉ v ∧
    (∀ c ∈ k, isLineBreak c = false) ∧ (∀ c ∈ v, isLineBreak c = false) ∧
    (∀ c, k.head? = some c → isPySpace c = false ∧ c ≠ '#') ∧
    (∀ c, v.getLast? = some c → isPySpace c = false) := by
  simp only [ledger_safe_entry, Bool.and_eq_true, Bool.not_eq_true',
    decide_eq_false_iff_not, List.all_eq_true] at h
  obtain ⟨⟨⟨⟨⟨⟨h1, h2⟩, h3⟩, h4⟩, h5⟩, h6⟩, h7⟩ := h
  refine ⟨?_, h2, h3, ?_, ?_, ?_, ?_⟩
  · intro e
    rw [e] at h1
    simp at h1
  · intro c hc
    have := h4 c hc
    simpa using this
  · intro c hc
    have := h5 c hc
    simpa using this
  · intro c hc
    rw [hc] at h6
    simp only [Bool.and_eq_true, Bool.not_eq_true', bne_iff_ne, ne_eq] at h6
    exact ⟨h6.1, h6.2⟩
  · intro c hc
    rw [hc] at h7
    simpa using h7

/-- Folding the parsed lines of a well-formed ledger serialization rebuilds
exactly the original dict (keys unique, appended in order). -/
theorem load_lines (m : List (List Char × List Char)) :
    ∀ acc : List (List Char × List Char),
      (m.map Prod.fst).Nodup →
      (∀ e ∈ m, ledger_safe_entry e = true) →
      (∀ e ∈ m, ∀ a ∈ acc, a.1 ≠ e.1) →
      List.foldl
        (fun entries line =>
          match parse_done_line line with
          | none => entries
          | some (path, opt) => dictInsert entries path opt)
        acc (m.map (fun e => e.1 ++ '|' :: e.2)) = acc ++ m := by
  induction m with
  | nil =>
    intro acc _ _ _
    simp
  | cons e m ih =>
    intro acc hnodup hsafe hdisj
    obtain ⟨k, v⟩ := e
    obtain ⟨hk, hkbar, _, _, _, hhead, hlast⟩ :=
      ledger_safe_entry_spec k v (hsafe (k, v) (by simp))
    rw [List.map_cons, List.foldl_cons]
    rw [parse_done_line_good k v hk hkbar hhead hlast]
    simp only []
    rw [dictInsert_append_of_not_mem acc k v
      (fun a ha => hdisj (k, v) (by simp) a ha)]
    have hnodup2 : (m.map Prod.fst).Nodup := by
      rw [List.map_cons, List.nodup_cons] at hnodup
      exact hnodup.2
    have hknot : k ∉ m.map Prod.fst := by
      rw [List.map_cons, List.nodup_cons] at hnodup
      exact hnodup.1
    have hdisj2 : ∀ e ∈ m, ∀ a ∈ acc ++ [(k, v)], a.1 ≠ e.1 := by
      intro e he a ha
      rcases List.mem_append.mp ha with h | h
      · exact hdisj e (by simp [he]) a h
      · rcases List.mem_singleton.mp h with rfl
        intro hcontra
        apply hknot
        have hk2 : k = e.1 := hcontra
        rw [hk2]
        exact List.mem_map_of_mem Prod.fst he
    rw [ih (acc ++ [(k, v)]) hnodup2 (fun e he => hsafe e (by simp [he])) hdisj2]
    simp

/-- C3 amended: the save/load round trip restores the mapping exactly for
dicts whose entries are `ledger_safe_entry`-well-formed (the original claim's
conditions plus: no line-boundary characters, key does not start with `#` or
whitespace, value does not end in whitespace). -/
theorem c3_roundtrip (m : List (List Char × List Char))
    (hnodup : (m.map Prod.fst).Nodup)
    (hsafe : ∀ e ∈ m, ledger_safe_entry e = true) :
    load_done (save_done m) = m := by
  unfold load_done
  rw [splitlines_save m (fun e he => by
    obtain ⟨_, _, _, hbk, hbv, _, _⟩ :=
      ledger_safe_entry_spec e.1 e.2 (by simpa using hsafe e he)
    exact ⟨hbk, hbv⟩)]
  rw [load_lines m [] hnodup hsafe (by simp)]
  simp

/-- The original claim's hypotheses on an entry: non-empty key, no delimiter
character in key or value. -/
def claimed_safe_entry (e : List Char × List Char) : Bool :=
  !e.1.isEmpty && !(decide ('|' ∈ e.1)) && !(decide ('|' ∈ e.2))

/-- C3 counterexample: the mapping `{"#a": "b"}` satisfies the claim's
hypotheses (non-empty key, delimiter-free key and value) but does not
round-trip — `save_done` writes the line `#a|b`, which `load_done` discards
as a comment. -/
theorem c3_roundtrip_counterexample :
    (List.map Prod.fst [("#a".toList, "b".toList)]).Nodup ∧
    (∀ e ∈ [("#a".toList, "b".toList)], claimed_safe_entry e = true) ∧
    load_done (save_done [("#a".toList, "b".toList)]) ≠
      [("#a".toList, "b".toList)] := by
  refine ⟨by decide, by decide, by decide⟩

theorem c3_roundtrip_witness :
    load_done (save_done
      [("/x/a.mkv".toList, "crf:23".toList),
       ("/x/b.mp4".toList, "br:3000".toList)]) =
      [("/x/a.mkv".toList, "crf:23".toList),
       ("/x/b.mp4".toList, "br:3000".toList)] :=
  c3_roundtrip _ (by decide) (by decide)

/-! ### C7: container-dependent subtitle policy of the encode plan -/

theorem tam_cons_ne (a : List Char) (rest : List (List Char))
    (h : a ≠ "-map".toList) :
    tokens_after_map (a :: rest) = tokens_after_map rest := by
  have h2 : ¬ a = ['-', 'm', 'a', 'p'] := by simpa using h
  simp [tokens_after_map, h2]

theorem tam_single (a : List Char) : tokens_after_map [a] = [] := by
  by_cases h : a = "-map".toList <;> simp [tokens_after_map, h]

theorem tok_ne_mapTok (i : Int) : ('0' :: ':' :: intRepr i) ≠ "-map".toList := by
  intro h
  simp at h

theorem intRepr_ne_mapTok (i : Int) : intRepr i ≠ "-map".toList := by
  cases i with
  | ofNat n =>
    intro h
    apply intRepr_no_dash n
    rw [show intRepr (Int.ofNat n) = natDigits n from rfl] at h
    rw [h]
    simp
  | negSucc n =>
    intro h
    rw [show intRepr (Int.negSucc n) = '-' :: natDigits (n + 1) from rfl] at h
    have h2 : natDigits (n + 1) = ['m', 'a', 'p'] := by
      have := List.tail_eq_of_cons_eq h
      simpa using this
    have h3 : 'm' ∈ natDigits (n + 1) := by rw [h2]; simp
    have := natDigits_all_digits (n + 1) 'm' h3
    simp [isDigitChar] at this

theorem kTok_ne_mapTok (i : Int) : intRepr i ++ ['k'] ≠ "-map".toList := by
  intro h
  have h1 : (intRepr i ++ ['k']).getLast? = some 'k' := by
    rw [getLast?_append_cons, List.getLast?_singleton]
  rw [h] at h1
  exact absurd h1 (by decide)

theorem tam_map_args (l : List Int) (rest : List (List Char)) :
    tokens_after_map (map_args l ++ rest) =
      l.map (fun i => '0' :: ':' :: intRepr i) ++ tokens_after_map rest := by
  induction l with
  | nil => simp [map_args]
  | cons i l' ih =>
    have hm : map_args (i :: l') =
        "-map".toList :: ('0' :: ':' :: intRepr i) :: map_args l' := rfl
    rw [hm, List.cons_append, List.cons_append]
    have h1 : tokens_after_map
        ("-map".toList :: ('0' :: ':' :: intRepr i) :: (map_args l' ++ rest)) =
        ('0' :: ':' :: intRepr i) ::
          tokens_after_map (('0' :: ':' :: intRepr i) :: (map_args l' ++ rest)) := by
      simp [tokens_after_map]
    rw [h1, tam_cons_ne _ _ (tok_ne_mapTok i), ih]
    rw [List.map_cons, List.cons_append]

theorem tam_append_no_map (xs rest : List (List Char))
    (h : ∀ x ∈ xs, x ≠ "-map".toList) :
    tokens_after_map (xs ++ rest) = tokens_after_map rest := by
  induction xs with
  | nil => rfl
  | cons a as ih =>
    rw [List.cons_append, tam_cons_ne _ _ (h a (by simp)),
      ih (fun x hx => h x (by simp [hx]))]

theorem video_params_no_map (cfg : Config) (crf : Option Int) :
    ∀ x ∈ video_params cfg crf, x ≠ "-map".toList := by
  intro x hx
  cases crf with
  | some c =>
    simp [video_params, TRANSCODER] at hx
    rcases hx with rfl|rfl|rfl|rfl|rfl|rfl|rfl|rfl|rfl|rfl|rfl|rfl|rfl|rfl
    all_goals first
      | decide
      | exact intRepr_ne_mapTok _
  | none =>
    simp [video_params, TRANSCODER] at hx
    rcases hx with rfl|rfl|rfl|rfl|rfl|rfl|rfl|rfl|rfl|rfl|rfl|rfl|rfl|rfl|rfl|rfl|rfl|rfl
    all_goals first
      | decide
      | exact kTok_ne_mapTok _

theorem sub_codec_args_no_map (s : List Char) :
    ∀ x ∈ sub_codec_args s, x ≠ "-map".toList := by
  intro x hx
  by_cases h1 : s = "copy".toList
  · simp [sub_codec_args, h1] at hx
    rcases hx with rfl | rfl <;> decide
  · by_cases h2 : s = "mov_text".toList
    · simp [sub_codec_args, h1, h2] at hx
      rcases hx with rfl | rfl <;> decide
    · have h1a : ¬ s = ['c', 'o', 'p', 'y'] := by simpa using h1
      have h2a : ¬ s = ['m', 'o', 'v', '_', 't', 'e', 'x', 't'] := by simpa using h2
      simp [sub_codec_args, h1a, h2a] at hx
      subst hx
      decide

/-- The streams mapped by a built command are exactly the video streams, then
the audio streams, then the container-selected subtitle streams. -/
theorem tokens_after_map_build (cfg : Config) (in_file out_file : PPath)
    (crf : Option Int) (sd : Option (List StreamEntry))
    (vids auds : List Int) (subs : List (Int × List Char))
    (hp : probe_streams sd = some (vids, auds, subs))
    (hin : path_str in_file ≠ "-map".toList) :
    tokens_after_map ((build_ffmpeg_cmd cfg in_file out_file crf sd).1.getD []) =
      (vids ++ auds ++ sub_selection (lowerL in_file.suffix) subs).map
        (fun i => '0' :: ':' :: intRepr i) := by
  simp only [build_ffmpeg_cmd, hp, Option.getD_some, List.cons_append,
    List.nil_append, List.append_assoc]
  rw [tam_cons_ne _ _ (by decide)]
  rw [tam_cons_ne _ _ (by decide)]
  rw [tam_cons_ne _ _ (by decide)]
  rw [tam_cons_ne _ _ (by decide)]
  rw [tam_cons_ne _ _ (by decide)]
  rw [tam_cons_ne _ _ (by decide)]
  rw [tam_cons_ne _ _ hin]
  rw [tam_map_args, tam_map_args, tam_map_args]
  rw [tam_append_no_map _ _ (video_params_no_map cfg crf)]
  rw [tam_append_no_map _ _ (sub_codec_args_no_map _)]
  rw [tam_single]
  simp

theorem tok_inj {i j : Int} (h : ('0' :: ':' :: intRepr i) = '0' :: ':' :: intRepr j) :
    i = j := by
  simp only [List.cons.injEq, true_and] at h
  exact intRepr_inj h

/-- C7: subtitle handling of the built encode command is determined by the
destination container: `.mkv` maps every subtitle stream and emits `-c:s copy`;
`.mp4`/`.mov` map exactly the subtitle streams whose codec is in the
recognized text-subtitle set and emit `-c:s mov_text`; every other container
maps no subtitle stream and emits `-sn`. -/
theorem c7_subtitle_policy (cfg : Config) (in_file out_file : PPath)
    (crf : Option Int) (sd : Option (List StreamEntry))
    (vids auds : List Int) (subs : List (Int × List Char))
    (hp : probe_streams sd = some (vids, auds, subs))
    (hin : path_str in_file ≠ "-map".toList) :
    (lowerL in_file.suffix = ".mkv".toList →
      (∀ e ∈ subs, ('0' :: ':' :: intRepr e.1) ∈
        tokens_after_map ((build_ffmpeg_cmd cfg in_file out_file crf sd).1.getD [])) ∧
      hasSegment ["-c:s".toList, "copy".toList]
        ((build_ffmpeg_cmd cfg in_file out_file crf sd).1.getD []) = true) ∧
    ((lowerL in_file.suffix = ".mp4".toList ∨ lowerL in_file.suffix = ".mov".toList) →
      (∀ e ∈ subs, e.1 ∉ vids → e.1 ∉ auds →
        (∀ c2, (e.1, c2) ∈ subs → c2 = e.2) →
        (('0' :: ':' :: intRepr e.1) ∈
            tokens_after_map ((build_ffmpeg_cmd cfg in_file out_file crf sd).1.getD []) ↔
          e.2 ∈ TEXT_SUB_CODECS)) ∧
      hasSegment ["-c:s".toList, "mov_text".toList]
        ((build_ffmpeg_cmd cfg in_file out_file crf sd).1.getD []) = true) ∧
    (lowerL in_file.suffix ≠ ".mkv".toList →
      lowerL in_file.suffix ≠ ".mp4".toList →
      lowerL in_file.suffix ≠ ".mov".toList →
      (∀ e ∈ subs, e.1 ∉ vids → e.1 ∉ auds →
        ('0' :: ':' :: intRepr e.1) ∉
          tokens_after_map ((build_ffmpeg_cmd cfg in_file out_file crf sd).1.getD [])) ∧
      "-sn".toList ∈ (build_ffmpeg_cmd cfg in_file out_file crf sd).1.getD []) := by
  have htam := tokens_after_map_build cfg in_file out_file crf sd vids auds subs hp hin
  refine ⟨?_, ?_, ?_⟩
  · intro hext
    constructor
    · intro e he
      have hsel : sub_selection (lowerL in_file.suffix) subs = subs.map Prod.fst := by
        simp [sub_selection, hext]
      rw [htam, hsel]
      refine List.mem_map_of_mem _ ?_
      exact List.mem_append.mpr (Or.inr (List.mem_map_of_mem Prod.fst he))
    · have hcmd : (build_ffmpeg_cmd cfg in_file out_file crf sd).1.getD [] =
          (["ffmpeg".toList, "-hide_banner".toList, "-loglevel".toList,
            "error".toList, "-y".toList, "-i".toList, path_str in_file]
           ++ map_args vids ++ map_args auds
           ++ map_args (sub_selection (lowerL in_file.suffix) subs)
           ++ video_params cfg crf)
          ++ ["-c:s".toList, "copy".toList] ++ [path_str out_file] := by
        simp [build_ffmpeg_cmd, hp, sub_mode_for, hext, sub_codec_args,
          List.append_assoc]
      rw [hcmd]
      exact hasSegment_middle _ _ _
  · intro hext
    have hmemsel : ∀ i : Int, i ∈ sub_selection (lowerL in_file.suffix) subs ↔
        ∃ c2, (i, c2) ∈ subs ∧ c2 ∈ TEXT_SUB_CODECS := by
      intro i
      have hsel : sub_selection (lowerL in_file.suffix) subs =
          (subs.filter (fun s => s.2 ∈ TEXT_SUB_CODECS)).map Prod.fst := by
        rcases hext with h | h <;> simp [sub_selection, h]
      rw [hsel]
      constructor
      · intro hm
        obtain ⟨a, ha, hfst⟩ := List.mem_map.mp hm
        have ha2 := List.mem_filter.mp ha
        refine ⟨a.2, ?_, by simpa using ha2.2⟩
        have : (a.1, a.2) = a := rfl
        rw [hfst] at this
        rw [this]
        exact ha2.1
      · rintro ⟨c2, hm, hc⟩
        refine List.mem_map.mpr ⟨(i, c2), List.mem_filter.mpr ⟨hm, by simpa using hc⟩, rfl⟩
    constructor
    · intro e he hnv hna huniq
      constructor
      · intro hmem
        rw [htam] at hmem
        obtain ⟨j, hj, hje⟩ := List.mem_map.mp hmem
        have hij : j = e.1 := tok_inj hje
        subst hij
        simp only [List.mem_append] at hj
        rcases hj with (hj | hj) | hj
        · exact absurd hj hnv
        · exact absurd hj hna
        · obtain ⟨c2, hm, hc⟩ := (hmemsel e.1).mp hj
          rw [huniq c2 hm] at hc
          exact hc
      · intro hcodec
        rw [htam]
        apply List.mem_map_of_mem
        have hin2 : e.1 ∈ sub_selection (lowerL in_file.suffix) subs :=
          (hmemsel e.1).mpr ⟨e.2, by simpa using he, hcodec⟩
        exact List.mem_append.mpr (Or.inr hin2)
    · rcases hext with h | h
      · have hcmd : (build_ffmpeg_cmd cfg in_file out_file crf sd).1.getD [] =
            (["ffmpeg".toList, "-hide_banner".toList, "-loglevel".toList,
              "error".toList, "-y".toList, "-i".toList, path_str in_file]
             ++ map_args vids ++ map_args auds
             ++ map_args (sub_selection (lowerL in_file.suffix) subs)
             ++ video_params cfg crf)
            ++ ["-c:s".toList, "mov_text".toList] ++ [path_str out_file] := by
          simp [build_ffmpeg_cmd, hp, sub_mode_for, h, sub_codec_args,
            List.append_assoc]
        rw [hcmd]
        exact hasSegment_middle _ _ _
      · have hcmd : (build_ffmpeg_cmd cfg in_file out_file crf sd).1.getD [] =
            (["ffmpeg".toList, "-hide_banner".toList, "-loglevel".toList,
              "error".toList, "-y".toList, "-i".toList, path_str in_file]
             ++ map_args vids ++ map_args auds
             ++ map_args (sub_selection (lowerL in_file.suffix) subs)
             ++ video_params cfg crf)
            ++ ["-c:s".toList, "mov_text".toList] ++ [path_str out_file] := by
          simp [build_ffmpeg_cmd, hp, sub_mode_for, h, sub_codec_args,
            List.append_assoc]
        rw [hcmd]
        exact hasSegment_middle _ _ _
  · intro h1 h2 h3
    have h1a : ¬ lowerL in_file.suffix = ['.', 'm', 'k', 'v'] := by simpa using h1
    have h2a : ¬ lowerL in_file.suffix = ['.', 'm', 'p', '4'] := by simpa using h2
    have h3a : ¬ lowerL in_file.suffix = ['.', 'm', 'o', 'v'] := by simpa using h3
    have hsel : sub_selection (lowerL in_file.suffix) subs = [] := by
      simp [sub_selection, h1a, h2a, h3a]
    constructor
    · intro e he hnv hna hmem
      rw [htam, hsel] at hmem
      obtain ⟨j, hj, hje⟩ := List.mem_map.mp hmem
      have hij : j = e.1 := tok_inj hje
      subst hij
      simp only [List.append_nil, List.mem_append] at hj
      rcases hj with hj | hj
      · exact absurd hj hnv
      · exact absurd hj hna
    · have hcmd : (build_ffmpeg_cmd cfg in_file out_file crf sd).1.getD [] =
          (["ffmpeg".toList, "-hide_banner".toList, "-loglevel".toList,
            "error".toList, "-y".toList, "-i".toList, path_str in_file]
           ++ map_args vids ++ map_args auds
           ++ map_args (sub_selection (lowerL in_file.suffix) subs)
           ++ video_params cfg crf)
          ++ ["-sn".toList] ++ [path_str out_file] := by
        simp [build_ffmpeg_cmd, hp, sub_mode_for, h1a, h2a, h3a, sub_codec_args,
          List.append_assoc]
      rw [hcmd]
      simp

theorem c7_subtitle_policy_witness :
    (('0' :: ':' :: intRepr (2 : Int)) ∈
      tokens_after_map ((build_ffmpeg_cmd defaultConfig
        (PPath.mk [] "a".toList ".mkv".toList)
        (tmp_name_for (PPath.mk [] "a".toList ".mkv".toList)) (some 23)
        (some [⟨some 0, some "video".toList, some "h264".toList⟩,
               ⟨some 1, some "audio".toList, some "aac".toList⟩,
               ⟨some 2, some "subtitle".toList, some "subrip".toList⟩])).1.getD [])) ∧
    hasSegment ["-c:s".toList, "copy".toList]
      ((build_ffmpeg_cmd defaultConfig (PPath.mk [] "a".toList ".mkv".toList)
        (tmp_name_for (PPath.mk [] "a".toList ".mkv".toList)) (some 23)
        (some [⟨some 0, some "video".toList, some "h264".toList⟩,
               ⟨some 1, some "audio".toList, some "aac".toList⟩,
               ⟨some 2, some "subtitle".toList, some "subrip".toList⟩])).1.getD [])
      = true := by
  have h := c7_subtitle_policy defaultConfig (PPath.mk [] "a".toList ".mkv".toList)
    (tmp_name_for (PPath.mk [] "a".toList ".mkv".toList)) (some 23)
    (some [⟨some 0, some "video".toList, some "h264".toList⟩,
           ⟨some 1, some "audio".toList, some "aac".toList⟩,
           ⟨some 2, some "subtitle".toList, some "subrip".toList⟩])
    [0] [1] [(2, "subrip".toList)] (by decide) (by decide)
  have h2 := h.1 (by decide)
  exact ⟨h2.1 (2, "subrip".toList) (by decide), h2.2⟩
